import Mathlib

set_option maxHeartbeats 1000000

/-!
Shallow embedding of the mcp-echo-tool server: the enhanced ten-tool server
in `src/index.ts` and the compiled single-tool server shipped alongside it.
Strings are modelled as lists of Unicode code points (Lean `Char`); the
JavaScript regex character classes used by the handlers are modelled on code
points, with case mapping on the ASCII range (the only range the proven
statements depend on; the spec itself flags the UTF-16 code-unit caveat).
-/

/-- Code points matched by the JavaScript regex class `\s`, used by the
echo, format and analyze handlers of `src/index.ts`. -/
def jsSpaceCodes : List Nat :=
  [9, 10, 11, 12, 13, 32, 160, 5760, 8192, 8193, 8194, 8195, 8196, 8197,
   8198, 8199, 8200, 8201, 8202, 8232, 8233, 8239, 8287, 12288, 65279]

/-- The JavaScript regex class `\s` as a predicate on code points. -/
def jsIsSpace (c : Char) : Bool := decide (c.toNat ∈ jsSpaceCodes)

/-- The JavaScript regex class `[a-zA-Z]` (the letters bucket of the
analyze handler). -/
def isAsciiLetter (c : Char) : Bool :=
  decide (65 ≤ c.toNat ∧ c.toNat ≤ 90) || decide (97 ≤ c.toNat ∧ c.toNat ≤ 122)

/-- The JavaScript regex class `\d` (the digits bucket of the analyze
handler). -/
def isDigitChar (c : Char) : Bool := decide (48 ≤ c.toNat ∧ c.toNat ≤ 57)

/-- The JavaScript regex class `\w`, that is `[A-Za-z0-9_]`. -/
def isWordChar (c : Char) : Bool := isAsciiLetter c || isDigitChar c || decide (c = '_')

/-- The regex class `[^\w\s]` (the punctuation bucket of the analyze
handler and the `remove_punctuation` format operation). -/
def isPunctChar (c : Char) : Bool := !(isWordChar c) && !(jsIsSpace c)

/-- `String.prototype.toLowerCase`, modelled on the ASCII range. -/
def jsToLower (c : Char) : Char :=
  if 65 ≤ c.toNat ∧ c.toNat ≤ 90 then Char.ofNat (c.toNat + 32) else c

/-- `String.prototype.toUpperCase`, modelled on the ASCII range. -/
def jsToUpper (c : Char) : Char :=
  if 97 ≤ c.toNat ∧ c.toNat ≤ 122 then Char.ofNat (c.toNat - 32) else c

/-- `String.prototype.trim`: drop `\s`-class code points at both ends. -/
def jsTrim (cs : List Char) : List Char :=
  ((cs.dropWhile jsIsSpace).reverse.dropWhile jsIsSpace).reverse

/-- `str.replace(/p+/g, String.mk [r])`: every maximal run of characters
satisfying `p` is replaced by the single character `r`.  This is the shape
of the two run-collapsing `replace` calls of the slugify pipeline. -/
def collapseRuns (p : Char → Bool) (r : Char) : List Char → List Char
  | [] => []
  | [c] => if p c then [r] else [c]
  | c :: c2 :: cs =>
    if p c then
      if p c2 then collapseRuns p r (c2 :: cs)
      else r :: collapseRuns p r (c2 :: cs)
    else c :: collapseRuns p r (c2 :: cs)

/-- `str.split(/p+/)`: JavaScript `String.prototype.split` against a regex
matching maximal nonempty runs of characters satisfying `p`.  The result
lists the (possibly empty) segments between the separator runs. -/
def splitRuns (p : Char → Bool) : List Char → List (List Char)
  | [] => [[]]
  | [c] => if p c then [[], []] else [[c]]
  | c :: c2 :: cs =>
    if p c then
      if p c2 then splitRuns p (c2 :: cs)
      else [] :: splitRuns p (c2 :: cs)
    else
      match splitRuns p (c2 :: cs) with
      | s :: rest => (c :: s) :: rest
      | [] => [[c]]

/-- Specification-side notion for the echo word count: the number of
maximal nonempty runs of characters not satisfying `p` (with `p` the
whitespace class these are the whitespace-delimited tokens). -/
def runCount (p : Char → Bool) : List Char → Nat
  | [] => 0
  | [c] => if p c then 0 else 1
  | c :: c2 :: cs =>
    if p c then runCount p (c2 :: cs)
    else if p c2 then 1 + runCount p (c2 :: cs)
    else runCount p (c2 :: cs)

/-- Echo handler word count (`src/index.ts`, stats block):
`message.trim().split(/\s+/).filter(w => w.length > 0).length`. -/
def wordCount (m : List Char) : Nat :=
  ((splitRuns jsIsSpace (jsTrim m)).filter (fun w => decide (0 < w.length))).length

/-- Echo handler character count: `message.length`. -/
def charCount (m : List Char) : Nat := m.length

/-- Format handler, `slugify` case (`src/index.ts`), transliterated:
lowercase, delete the characters outside `\w`, `\s` and hyphen, replace
each `\s` run by a hyphen, collapse hyphen runs, then apply the final
`String.prototype.trim` of the source, which strips whitespace. -/
def slugify (text : List Char) : List Char :=
  jsTrim (collapseRuns (fun c => c == '-') '-'
    (collapseRuns jsIsSpace '-'
      ((text.map jsToLower).filter (fun c => isWordChar c || jsIsSpace c || c == '-'))))

/-- Modelled from the spec: slug generation exactly as the spec words it —
lowercase, strip non-word/non-space/non-hyphen characters, collapse
whitespace runs to single hyphens, collapse repeated hyphens, and trim
leading and trailing hyphens.  Used to compare the spec's description with
the `slugify` definition taken from the source. -/
def specSlugify (text : List Char) : List Char :=
  let collapsed := collapseRuns (fun c => c == '-') '-'
    (collapseRuns jsIsSpace '-'
      ((text.map jsToLower).filter (fun c => isWordChar c || jsIsSpace c || c == '-')))
  ((collapsed.dropWhile (fun c => c == '-')).reverse.dropWhile (fun c => c == '-')).reverse

/-- The composition block of the analyze handler: four regex match counts
and an `other` bucket computed by subtraction from the total length, all
JavaScript numbers (modelled as integers). -/
structure TextComposition where
  letters : Int
  digits : Int
  spaces : Int
  punctuation : Int
  other : Int
deriving Repr, DecidableEq

/-- Analyze handler composition counts (`src/index.ts`):
`letters = (text.match(/[a-zA-Z]/g) || []).length` and so on, with
`other: text.length - letters - digits - spaces - punctuation`. -/
def composition (t : List Char) : TextComposition :=
  let letters : Int := (t.filter isAsciiLetter).length
  let digits : Int := (t.filter isDigitChar).length
  let spaces : Int := (t.filter jsIsSpace).length
  let punctuation : Int := (t.filter isPunctChar).length
  { letters := letters, digits := digits, spaces := spaces,
    punctuation := punctuation,
    other := (t.length : Int) - letters - digits - spaces - punctuation }

/-- The opening brace character, kept as a named constant. -/
def lbrace : Char := Char.ofNat 123

/-- The closing brace character, kept as a named constant. -/
def rbrace : Char := Char.ofNat 125

/-- JSON values as the handlers build and consume them.  Numeric values are
modelled as integers: every numeric field produced by the handlers in scope
(lengths, counts) is an integer. -/
inductive Json where
  | null : Json
  | bool : Bool → Json
  | num : Int → Json
  | str : String → Json
  | arr : List Json → Json
  | obj : List (String × Json) → Json
deriving Inhabited

/-- Decimal digits of a nonnegative integer, most significant first. -/
def natChars (n : Nat) : List Char :=
  (Nat.toDigits 10 n)

/-- JavaScript rendering of an integer-valued number. -/
def intChars (i : Int) : List Char :=
  if i < 0 then '-' :: natChars i.natAbs else natChars i.natAbs

/-- One escaped character of a JSON string literal, as produced by
`JSON.stringify`. -/
def jsonEscapeChar (c : Char) : List Char :=
  if c = '"' then ['\\', '"']
  else if c = '\\' then ['\\', '\\']
  else if c = '\x08' then ['\\', 'b']
  else if c = '\x0c' then ['\\', 'f']
  else if c = '\n' then ['\\', 'n']
  else if c = '\r' then ['\\', 'r']
  else if c = '\t' then ['\\', 't']
  else if c.toNat < 32 then
    ['\\', 'u', '0', '0', (Nat.digitChar (c.toNat / 16)), (Nat.digitChar (c.toNat % 16))]
  else [c]

/-- A quoted JSON string literal. -/
def quoteChars (s : String) : List Char :=
  '"' :: (s.data.flatMap jsonEscapeChar ++ ['"'])

/-- Indentation emitted by `JSON.stringify` at width `w` and depth `d`. -/
def jsonIndent (w d : Nat) : List Char := List.replicate (w * d) ' '

mutual

/-- `JSON.stringify(v, null, w)` at nesting depth `d`: pretty-printed with
newlines and `w`-space indentation when `0 < w`, compact when `w = 0`
(JavaScript treats an indent of `0` as no indentation). -/
def stringifyAt (w d : Nat) : Json → List Char
  | Json.null => ['n', 'u', 'l', 'l']
  | Json.bool true => ['t', 'r', 'u', 'e']
  | Json.bool false => ['f', 'a', 'l', 's', 'e']
  | Json.num i => intChars i
  | Json.str s => quoteChars s
  | Json.arr [] => ['[', ']']
  | Json.arr (x :: xs) =>
    if w = 0 then
      '[' :: (stringifyItems w 0 (x :: xs) ++ [']'])
    else
      '[' :: '\n' :: (stringifyItems w (d + 1) (x :: xs) ++
        ('\n' :: (jsonIndent w d ++ [']'])))
  | Json.obj [] => [lbrace, rbrace]
  | Json.obj (f :: fs) =>
    if w = 0 then
      lbrace :: (stringifyFields w 0 (f :: fs) ++ [rbrace])
    else
      lbrace :: '\n' :: (stringifyFields w (d + 1) (f :: fs) ++
        ('\n' :: (jsonIndent w d ++ [rbrace])))

/-- The comma-separated items of a JSON array. -/
def stringifyItems (w d : Nat) : List Json → List Char
  | [] => []
  | [x] => jsonIndent w d ++ stringifyAt w d x
  | x :: x2 :: xs =>
    jsonIndent w d ++ stringifyAt w d x ++
      (if w = 0 then [','] else [',', '\n']) ++ stringifyItems w d (x2 :: xs)

/-- The comma-separated fields of a JSON object (a pretty-printed field is
rendered as the quoted key, a colon and a space, then the value; the
compact form omits the space). -/
def stringifyFields (w d : Nat) : List (String × Json) → List Char
  | [] => []
  | [(k, v)] =>
    jsonIndent w d ++ quoteChars k ++
      (if w = 0 then [':'] else [':', ' ']) ++ stringifyAt w d v
  | (k, v) :: f2 :: fs =>
    jsonIndent w d ++ quoteChars k ++
      (if w = 0 then [':'] else [':', ' ']) ++ stringifyAt w d v ++
      (if w = 0 then [','] else [',', '\n']) ++ stringifyFields w d (f2 :: fs)

end

/-- Looks up a field of a JSON object (the first binding of the key). -/
def objField (j : Json) (k : String) : Option Json :=
  match j with
  | Json.obj fs => (fs.find? (fun f => f.fst == k)).map (fun f => f.snd)
  | _ => none

/-- One `type: "text"` content item of the wire envelope. -/
structure ContentItem where
  text : String
deriving DecidableEq

/-- The uniform wire envelope returned by every handler:
`content: [...], isError?: boolean`.  An absent `isError` is `none`. -/
structure Envelope where
  content : List ContentItem
  isError : Option Bool
deriving DecidableEq

/-- The try/catch shape shared verbatim by all ten handlers of
`src/index.ts`: a successful body is wrapped as the pretty-printed JSON of
the structured result (`JSON.stringify(response, null, 2)`) with `isError`
absent, a thrown failure is caught and wrapped as the string
`Error: <message>` with `isError: true`. -/
def wrapHandler : Except String Json → Envelope
  | Except.ok v => { content := [{ text := String.mk (stringifyAt 2 0 v) }], isError := none }
  | Except.error msg => { content := [{ text := ("Error: ") ++ msg }], isError := some true }

/-- `typeof` on a parsed JSON value (`typeof null` is `"object"`). -/
def jsTypeOf : Json → String
  | Json.null => ("object")
  | Json.bool _ => ("boolean")
  | Json.num _ => ("number")
  | Json.str _ => ("string")
  | Json.arr _ => ("object")
  | Json.obj _ => ("object")

/-- The json handler's `getType` helper: null and arrays are mapped apart
from the other `typeof` results. -/
def getType : Json → String
  | Json.null => ("null")
  | Json.arr _ => ("array")
  | v => jsTypeOf v

/-- `typeof v === "object" && v !== null && !Array.isArray(v)`: the guard
under which the json handler's `getAllKeys` recurses into a value. -/
def isPlainObj : Json → Bool
  | Json.obj _ => true
  | _ => false

/-- `typeof v === "object" && v !== null`: the guard applied to the root
value before calling `getAllKeys` (arrays pass this one). -/
def isObjectLike : Json → Bool
  | Json.obj _ => true
  | Json.arr _ => true
  | _ => false

mutual

/-- The json handler's `getAllKeys(obj, prefix)` (`src/index.ts`): a
`for..in` walk pushing each key (dotted under the prefix) and recursing
exactly into plain-object values.  At the root it is also applied to
arrays, where `for..in` enumerates the index positions `0, 1, ...` as
string keys.  Object fields are walked in insertion order (the `for..in`
rule that integer-like keys are enumerated first is not modelled; no
proven statement depends on the enumeration order of object fields). -/
def getAllKeys : Json → String → List String
  | Json.obj fs, pre => getAllKeysFields fs pre
  | Json.arr xs, pre => getAllKeysItems xs 0 pre
  | _, _ => []

/-- The `for..in` body of `getAllKeys` over an object's fields. -/
def getAllKeysFields : List (String × Json) → String → List String
  | [], _ => []
  | (k, v) :: fs, pre =>
    (if pre = "" then k else pre ++ "." ++ k) ::
      ((if isPlainObj v then getAllKeys v (if pre = "" then k else pre ++ "." ++ k) else []) ++
        getAllKeysFields fs pre)

/-- The `for..in` body of `getAllKeys` over an array's index keys, with
`i` the index of the first listed element. -/
def getAllKeysItems : List Json → Nat → String → List String
  | [], _, _ => []
  | v :: xs, i, pre =>
    (if pre = "" then toString i else pre ++ "." ++ toString i) ::
      ((if isPlainObj v then getAllKeys v (if pre = "" then toString i else pre ++ "." ++ toString i) else []) ++
        getAllKeysItems xs (i + 1) pre)

end

/-- The `keys` value computed by the json handler's `get_keys` operation:
`getAllKeys` on the parsed value when it is object-like, else `[]`. -/
def jsonGetKeys (j : Json) : List String :=
  if isObjectLike j then getAllKeys j "" else []

/-- UTF-8 encoding of one code point (`Buffer.from(string)`). -/
def utf8EncodeChar (n : Nat) : List Nat :=
  if n < 128 then [n]
  else if n < 2048 then [192 + n / 64, 128 + n % 64]
  else if n < 65536 then [224 + n / 4096, 128 + (n / 64) % 64, 128 + n % 64]
  else [240 + n / 262144, 128 + (n / 4096) % 64, 128 + (n / 64) % 64, 128 + n % 64]

/-- UTF-8 byte encoding of a string (`Buffer.from(s, "utf-8")` /
`Buffer.byteLength(s, "utf-8")`). -/
def utf8Encode (s : String) : List Nat :=
  s.data.flatMap (fun c => utf8EncodeChar c.toNat)

/-- The json handler body after a successful `JSON.parse` (`src/index.ts`):
the `validate`, `get_keys` and `get_type` operations and the default
branch.  The `format` operation is included with its variable indent; the
`minify` operation is omitted (its `compression_ratio` field is float
formatting, outside this embedding).  Fields the source leaves `undefined`
are omitted, as `JSON.stringify` drops them. -/
def jsonCore (parsed : Json) (operation : String) (data : String) (indent : Nat) : Except String Json :=
  if operation = "validate" then
    Except.ok (Json.obj
      ([(("valid"), Json.bool true),
        (("type"), Json.str (match parsed with | Json.arr _ => ("array") | v => jsTypeOf v)),
        (("size_bytes"), Json.num (utf8Encode data).length)] ++
       (match parsed with
        | Json.obj fs => [(("keys"), Json.arr (fs.map (fun f => Json.str f.fst)))]
        | _ => []) ++
       (match parsed with
        | Json.arr xs => [(("array_length"), Json.num xs.length)]
        | _ => [])))
  else if operation = "format" then
    Except.ok (Json.obj
      [(("valid"), Json.bool true),
       (("formatted"), Json.str (String.mk (stringifyAt indent 0 parsed)))])
  else if operation = "get_keys" then
    Except.ok (Json.obj
      [(("valid"), Json.bool true),
       (("keys"), Json.arr ((jsonGetKeys parsed).map Json.str))])
  else if operation = "get_type" then
    Except.ok (Json.obj
      ([(("valid"), Json.bool true),
        (("root_type"), Json.str (getType parsed))] ++
       (match parsed with
        | Json.obj fs => [(("types"), Json.obj (fs.map (fun f => (f.fst, Json.str (getType f.snd)))))]
        | _ => [])))
  else
    Except.ok (Json.obj [(("valid"), Json.bool true)])

/-- The json handler (`src/index.ts`): `parsed` is the outcome of the
external `JSON.parse(data)` call, with the engine's message on failure.  A
parse failure short-circuits into an `isError: true` envelope whose text is
the pretty-printed JSON of a validity-false object — not an
`Error: <message>` string; a parsed value is processed by `jsonCore` and
wrapped by the shared try/catch shape. -/
def jsonEnvelope (parsed : Except String Json) (operation : String) (data : String) (indent : Nat) : Envelope :=
  match parsed with
  | Except.error e =>
    { content := [{ text := String.mk (stringifyAt 2 0
        (Json.obj [(("valid"), Json.bool false), (("error"), Json.str e)])) }],
      isError := some true }
  | Except.ok j => wrapHandler (jsonCore j operation data indent)

/-- The standard Base64 alphabet (`Buffer.prototype.toString("base64")`). -/
def b64TableStd (n : Nat) : Char :=
  (("ABCDEFGHIJKLMNOPQRSTUVWXYZabcdefghijklmnopqrstuvwxyz0123456789+/").data).getD n '?'

/-- The URL-safe Base64 alphabet (`toString("base64url")`). -/
def b64TableUrl (n : Nat) : Char :=
  (("ABCDEFGHIJKLMNOPQRSTUVWXYZabcdefghijklmnopqrstuvwxyz0123456789-_").data).getD n '?'

/-- Bytes to six-bit groups: each block of three bytes becomes four
sextets; a leftover byte becomes two sextets, two leftover bytes three. -/
def bytesToSextets : List Nat → List Nat
  | b1 :: b2 :: b3 :: rest =>
    [b1 / 4, (b1 % 4) * 16 + b2 / 16, (b2 % 16) * 4 + b3 / 64, b3 % 64] ++
      bytesToSextets rest
  | [b1, b2] => [b1 / 4, (b1 % 4) * 16 + b2 / 16, (b2 % 16) * 4]
  | [b1] => [b1 / 4, (b1 % 4) * 16]
  | [] => []

/-- The `=` padding appended by the standard-alphabet encoder (the Node
`base64url` encoder emits no padding). -/
def b64Pad (len : Nat) : List Char :=
  if len % 3 = 1 then ['=', '=']
  else if len % 3 = 2 then ['=']
  else []

/-- `Buffer.from(bytes).toString("base64" or "base64url")`. -/
def b64encode (urlSafe : Bool) (bs : List Nat) : List Char :=
  (bytesToSextets bs).map (if urlSafe then b64TableUrl else b64TableStd) ++
    (if urlSafe then [] else b64Pad bs.length)

/-- Node's Base64 digit table (`unbase64`): it accepts the characters of
both the standard and the URL-safe alphabet in either decoding mode, and
maps every other character to an ignore marker. -/
def unbase64 (c : Char) : Option Nat :=
  if 65 ≤ c.toNat ∧ c.toNat ≤ 90 then some (c.toNat - 65)
  else if 97 ≤ c.toNat ∧ c.toNat ≤ 122 then some (c.toNat - 97 + 26)
  else if 48 ≤ c.toNat ∧ c.toNat ≤ 57 then some (c.toNat - 48 + 52)
  else if c = '+' ∨ c = '-' then some 62
  else if c = '/' ∨ c = '_' then some 63
  else none

/-- Node's lenient Base64 scan: characters outside the digit table are
skipped, a `=` stops decoding.  The decoder therefore never throws. -/
def collectSextets : List Char → List Nat
  | [] => []
  | c :: cs =>
    if c = '=' then []
    else
      match unbase64 c with
      | some v => v :: collectSextets cs
      | none => collectSextets cs

/-- Six-bit groups back to bytes: four sextets give three bytes, three
leftover sextets two bytes, two leftover sextets one byte, a single
leftover sextet nothing. -/
def sextetsToBytes : List Nat → List Nat
  | s1 :: s2 :: s3 :: s4 :: rest =>
    [s1 * 4 + s2 / 16, (s2 % 16) * 16 + s3 / 4, (s3 % 4) * 64 + s4] ++
      sextetsToBytes rest
  | [s1, s2, s3] => [s1 * 4 + s2 / 16, (s2 % 16) * 16 + s3 / 4]
  | [s1, s2] => [s1 * 4 + s2 / 16]
  | [_] => []
  | [] => []

/-- `Buffer.from(data, "base64")` and `Buffer.from(data, "base64url")`:
Node's decoder is the same lenient scan for both modes. -/
def b64decode (cs : List Char) : List Nat :=
  sextetsToBytes (collectSextets cs)

/-- The replacement character emitted by lossy UTF-8 decoding. -/
def replChar : Char := Char.ofNat 65533

/-- A UTF-8 continuation byte. -/
def isContByte (b : Nat) : Bool := decide (128 ≤ b ∧ b ≤ 191)

/-- Lossy UTF-8 decoding of a byte list (`buffer.toString("utf-8")`),
following the WHATWG decoder: malformed sequences turn into the
replacement character. -/
def utf8LossyChars : List Nat → List Char
  | [] => []
  | b :: rest =>
    if b ≤ 127 then Char.ofNat b :: utf8LossyChars rest
    else if 194 ≤ b ∧ b ≤ 223 then
      match rest with
      | [] => [replChar]
      | b2 :: rest2 =>
        if isContByte b2 then
          Char.ofNat ((b - 192) * 64 + (b2 - 128)) :: utf8LossyChars rest2
        else replChar :: utf8LossyChars (b2 :: rest2)
    else if 224 ≤ b ∧ b ≤ 239 then
      match rest with
      | [] => [replChar]
      | b2 :: rest2 =>
        if (if b = 224 then 160 else 128) ≤ b2 ∧ b2 ≤ (if b = 237 then 159 else 191) then
          match rest2 with
          | [] => [replChar]
          | b3 :: rest3 =>
            if isContByte b3 then
              Char.ofNat ((b - 224) * 4096 + (b2 - 128) * 64 + (b3 - 128)) ::
                utf8LossyChars rest3
            else replChar :: utf8LossyChars (b3 :: rest3)
        else replChar :: utf8LossyChars (b2 :: rest2)
    else if 240 ≤ b ∧ b ≤ 244 then
      match rest with
      | [] => [replChar]
      | b2 :: rest2 =>
        if (if b = 240 then 144 else 128) ≤ b2 ∧ b2 ≤ (if b = 244 then 143 else 191) then
          match rest2 with
          | [] => [replChar]
          | b3 :: rest3 =>
            if isContByte b3 then
              match rest3 with
              | [] => [replChar]
              | b4 :: rest4 =>
                if isContByte b4 then
                  Char.ofNat ((b - 240) * 262144 + (b2 - 128) * 4096 +
                      (b3 - 128) * 64 + (b4 - 128)) :: utf8LossyChars rest4
                else replChar :: utf8LossyChars (b4 :: rest4)
            else replChar :: utf8LossyChars (b3 :: rest3)
        else replChar :: utf8LossyChars (b2 :: rest2)
    else replChar :: utf8LossyChars rest

/-- The try body of the base64 handler (`src/index.ts`).  The decode
branch's inner catch — `throw new Error("Invalid Base64 input")` — is dead
code: Node's lenient decoder modelled by `b64decode` never throws, so the
branch always returns a success payload. -/
def base64Core (operation : String) (data : String) (urlSafe : Bool) : Except String Json :=
  if operation = "encode" then
    Except.ok (Json.obj
      [(("operation"), Json.str operation),
       (("input_length"), Json.num data.length),
       (("output_length"), Json.num (b64encode urlSafe (utf8Encode data)).length),
       (("url_safe"), Json.bool urlSafe),
       (("result"), Json.str (String.mk (b64encode urlSafe (utf8Encode data))))])
  else
    Except.ok (Json.obj
      [(("operation"), Json.str operation),
       (("input_length"), Json.num data.length),
       (("output_length"), Json.num (utf8LossyChars (b64decode data.data)).length),
       (("url_safe"), Json.bool urlSafe),
       (("result"), Json.str (String.mk (utf8LossyChars (b64decode data.data))))])

/-- The base64 handler: the try body wrapped in the shared envelope
shape. -/
def base64Handler (operation : String) (data : String) (urlSafe : Bool) : Envelope :=
  wrapHandler (base64Core operation data urlSafe)

/-- A hexadecimal digit, either case. -/
def isHexChar (c : Char) : Bool :=
  isDigitChar c || decide (97 ≤ c.toNat ∧ c.toNat ≤ 102) || decide (65 ≤ c.toNat ∧ c.toNat ≤ 70)

/-- What character is allowed at position `i` of a version-4 UUID string:
hyphens at 8, 13, 18 and 23, the version nibble `4` at 14, a variant
nibble at 19, hexadecimal digits elsewhere. -/
def uuidPosOk (i : Nat) (c : Char) : Bool :=
  if i = 8 || i = 13 || i = 18 || i = 23 then c == '-'
  else if i = 14 then c == '4'
  else if i = 19 then (['8', '9', 'a', 'b', 'A', 'B']).contains c
  else isHexChar c

/-- Syntactic validity of a version-4 UUID (RFC 4122 textual form, hex
digits of either case). -/
def isValidUuidV4 (s : String) : Bool :=
  decide (s.data.length = 36) &&
    (List.range 36).all (fun i => uuidPosOk i (s.data.getD i ' '))

/-- `String.prototype.toUpperCase` on a whole string (ASCII model). -/
def jsToUpperStr (s : String) : String := String.mk (s.data.map jsToUpper)

/-- The uuid handler's generation loop (`src/index.ts`): `count` calls of
the external `randomUUID()` — modelled by the stream `gen`, whose contract
is to return version-4 UUID strings — with the uppercase option applied to
each.  The requested version is never consulted. -/
def uuidList (gen : Nat → String) (count : Nat) (upper : Bool) : List String :=
  (List.range count).map (fun i => if upper then jsToUpperStr (gen i) else gen i)

/-- The structured result of the uuid handler: the echoed version label,
the generated count, and the identifiers. -/
def uuidHandler (gen : Nat → String) (version : String) (count : Nat) (upper : Bool) : Json :=
  Json.obj
    [(("version"), Json.str version),
     (("count"), Json.num (uuidList gen count upper).length),
     (("uuids"), Json.arr ((uuidList gen count upper).map Json.str))]

/-- The schema bound on the uuid `count` argument:
`z.number().int().min(1).max(100)` over an integral count. -/
def uuidCountValid (count : Int) : Bool := decide (1 ≤ count ∧ count ≤ 100)

/-- The validation gate in front of the uuid handler: a count outside the
schema bound is rejected before the handler runs (`none`); the rejection
message itself is shaped by the external protocol layer. -/
def uuidDispatch (gen : Nat → String) (version : String) (count : Int) (upper : Bool) : Option Json :=
  if uuidCountValid count then some (uuidHandler gen version count.toNat upper) else none

/-- The random handler's integer generator (`src/index.ts`):
`Math.floor(Math.random() * (max - min + 1)) + min`, with `Math.random`
modelled as an exact rational in `[0, 1)`. -/
def randomInt (r minv maxv : ℚ) : ℚ :=
  ((⌊r * (maxv - minv + 1)⌋ : Int) : ℚ) + minv

/-- The random handler's float generator:
`Math.random() * (max - min) + min`. -/
def randomFloat (r minv maxv : ℚ) : ℚ :=
  r * (maxv - minv) + minv

/-- The echo response of the original single-tool server (the compiled
`mcp-echo-tool` 1.0.0 source shipped in the repository), with the
wall-clock timestamp passed in. -/
def echoResponseV1 (m : String) (now : String) : Json :=
  Json.obj
    [(("original"), Json.str m),
     (("reversed"), Json.str (String.mk m.data.reverse)),
     (("word_count"), Json.num (wordCount m.data)),
     (("char_count"), Json.num (charCount m.data)),
     (("timestamp"), Json.str now)]

/-- The call-tool dispatch of the original single-tool server: a name
other than `echo` throws `Unknown tool: <name>` before anything else runs;
a missing or empty (falsy) message argument throws
`Message parameter is required`; otherwise the echo response is built.  A
thrown error is the `Except.error` outcome, which the protocol layer
reports as a structured error response. -/
def handleCallToolV1 (name : String) (message : Option String) (now : String) : Except String Json :=
  if name ≠ "echo" then Except.error (("Unknown tool: ") ++ name)
  else
    match message with
    | none => Except.error (("Message parameter is required"))
    | some m =>
      if m = "" then Except.error (("Message parameter is required"))
      else Except.ok (echoResponseV1 m now)

/-- Every character of a collapsed list is the replacement character or a
character of the input. -/
theorem mem_collapseRuns (p : Char → Bool) (r : Char) :
    ∀ cs c, c ∈ collapseRuns p r cs → c = r ∨ c ∈ cs
  | [], c, h => by simp [collapseRuns] at h
  | [c1], c, h => by
    by_cases hp : p c1 = true <;> simp_all [collapseRuns]
  | c1 :: c2 :: cs, c, h => by
    have ih := mem_collapseRuns p r (c2 :: cs) c
    by_cases hp : p c1 = true
    · by_cases hp2 : p c2 = true
      · simp only [collapseRuns, hp, hp2, if_true] at h
        rcases ih h with h1 | h1
        · exact Or.inl h1
        · exact Or.inr (List.mem_cons_of_mem _ h1)
      · simp only [collapseRuns, hp, hp2, if_true, if_false, Bool.false_eq_true,
          List.mem_cons] at h
        rcases h with h1 | h1
        · exact Or.inl h1
        · rcases ih h1 with h2 | h2
          · exact Or.inl h2
          · exact Or.inr (List.mem_cons_of_mem _ h2)
    · simp only [collapseRuns, hp, Bool.false_eq_true, if_false, List.mem_cons] at h
      rcases h with h1 | h1
      · exact Or.inr (by simp [h1])
      · rcases ih h1 with h2 | h2
        · exact Or.inl h2
        · exact Or.inr (List.mem_cons_of_mem _ h2)

/-- When the replacement character itself does not satisfy `p`, no
character of a collapsed list satisfies `p`. -/
theorem collapseRuns_not_p (p : Char → Bool) (r : Char) (hr : p r = false) :
    ∀ cs c, c ∈ collapseRuns p r cs → p c = false
  | [], c, h => by simp [collapseRuns] at h
  | [c1], c, h => by
    by_cases hp : p c1 = true <;> simp_all [collapseRuns]
  | c1 :: c2 :: cs, c, h => by
    have ih := collapseRuns_not_p p r hr (c2 :: cs) c
    by_cases hp : p c1 = true
    · by_cases hp2 : p c2 = true
      · simp only [collapseRuns, hp, hp2, if_true] at h
        exact ih h
      · simp only [collapseRuns, hp, hp2, if_true, Bool.false_eq_true, if_false,
          List.mem_cons] at h
        rcases h with h1 | h1
        · simpa [h1] using hr
        · exact ih h1
    · simp only [collapseRuns, hp, Bool.false_eq_true, if_false, List.mem_cons] at h
      rcases h with h1 | h1
      · simpa [h1] using (by simpa using hp : p c1 = false)
      · exact ih h1

/-- `dropWhile` leaves a list alone when no element satisfies the
predicate. -/
theorem dropWhile_eq_self_of (p : Char → Bool) (cs : List Char)
    (h : ∀ c ∈ cs, p c = false) : cs.dropWhile p = cs := by
  cases cs with
  | nil => rfl
  | cons c cs => rw [List.dropWhile_cons]; simp [h c (by simp)]

/-- `String.prototype.trim` leaves a whitespace-free list alone. -/
theorem jsTrim_eq_self (cs : List Char) (h : ∀ c ∈ cs, jsIsSpace c = false) :
    jsTrim cs = cs := by
  unfold jsTrim
  rw [dropWhile_eq_self_of _ _ h,
    dropWhile_eq_self_of _ _ (fun c hc => h c (List.mem_reverse.mp hc)),
    List.reverse_reverse]

/-- Claim C2 (amended): for every input text the format tool's slugify
operation returns the text lowercased, with non-word/non-space/non-hyphen
characters removed, whitespace runs collapsed to single hyphens and
repeated hyphens collapsed to one; the final `trim` of the source strips
whitespace only and is a no-op at that point, so leading and trailing
hyphens are kept, not removed; slugify of "hello world" is
"hello-world". -/
theorem slugify_pipeline (t : List Char) :
    slugify t = collapseRuns (fun c => c == '-') '-'
      (collapseRuns jsIsSpace '-'
        ((t.map jsToLower).filter (fun c => isWordChar c || jsIsSpace c || c == '-')))
    ∧ slugify (("hello world").data) = ("hello-world").data := by
  constructor
  · unfold slugify
    apply jsTrim_eq_self
    intro c hc
    rcases mem_collapseRuns _ _ _ c hc with h | h
    · subst h; decide
    · exact collapseRuns_not_p jsIsSpace '-' (by decide) _ c h
  · decide

/-- Claim C2 counterexample: on the input " hello " the source's slugify
returns "-hello-", keeping the leading and trailing hyphens, while the
spec's described pipeline (which trims hyphens) returns "hello". -/
theorem slugify_hyphen_counterexample :
    slugify ((" hello ").data) = ("-hello-").data
    ∧ specSlugify ((" hello ").data) = ("hello").data
    ∧ slugify ((" hello ").data) ≠ specSlugify ((" hello ").data) := by
  refine ⟨by decide, by decide, by decide⟩

/-- `String.prototype.split` never returns an empty segment list. -/
theorem splitRuns_ne_nil (p : Char → Bool) : ∀ cs, splitRuns p cs ≠ []
  | [] => by simp [splitRuns]
  | [c] => by by_cases hp : p c = true <;> simp [splitRuns, hp]
  | c :: c2 :: cs => by
    have ih := splitRuns_ne_nil p (c2 :: cs)
    by_cases hp : p c = true
    · by_cases hp2 : p c2 = true
      · simpa [splitRuns, hp, hp2] using ih
      · simp [splitRuns, hp, hp2]
    · simp only [splitRuns, hp, Bool.false_eq_true, if_false]
      cases hsp : splitRuns p (c2 :: cs) with
      | nil => exact absurd hsp ih
      | cons s rest => simp

/-- The first segment of a split is empty exactly when the list starts
with a separator character. -/
theorem splitRuns_head_shape (p : Char → Bool) :
    ∀ c cs, (p c = true → ∃ rest, splitRuns p (c :: cs) = [] :: rest)
      ∧ (p c = false → ∃ s rest, splitRuns p (c :: cs) = (c :: s) :: rest)
  | c, [] => by
    constructor
    · intro hp; exact ⟨[[]], by simp [splitRuns, hp]⟩
    · intro hp; exact ⟨[], [], by simp [splitRuns, hp]⟩
  | c, c2 :: cs => by
    have ih := splitRuns_head_shape p c2 cs
    constructor
    · intro hp
      by_cases hp2 : p c2 = true
      · obtain ⟨rest, hr⟩ := ih.1 hp2
        exact ⟨rest, by simp [splitRuns, hp, hp2, hr]⟩
      · exact ⟨splitRuns p (c2 :: cs), by simp [splitRuns, hp, hp2]⟩
    · intro hp
      cases hsp : splitRuns p (c2 :: cs) with
      | nil => exact absurd hsp (splitRuns_ne_nil p _)
      | cons s rest => exact ⟨s, rest, by simp [splitRuns, hp, hsp]⟩

/-- The split-filter-count idiom of the echo handler counts exactly the
maximal nonempty runs of non-separator characters. -/
theorem filter_splitRuns_length (p : Char → Bool) :
    ∀ cs, ((splitRuns p cs).filter (fun w => decide (0 < w.length))).length = runCount p cs
  | [] => by simp [splitRuns, runCount]
  | [c] => by by_cases hp : p c = true <;> simp [splitRuns, runCount, hp]
  | c :: c2 :: cs => by
    have ih := filter_splitRuns_length p (c2 :: cs)
    by_cases hp : p c = true
    · by_cases hp2 : p c2 = true
      · simp only [splitRuns, runCount, hp, hp2, if_true]
        exact ih
      · simp only [splitRuns, runCount, hp, hp2, if_true, Bool.false_eq_true, if_false]
        rw [List.filter_cons]
        simpa using ih
    · cases hsp : splitRuns p (c2 :: cs) with
      | nil => exact absurd hsp (splitRuns_ne_nil p _)
      | cons s rest =>
        have hfil : ((s :: rest).filter (fun w => decide (0 < w.length))).length =
            runCount p (c2 :: cs) := by rw [← hsp]; exact ih
        by_cases hp2 : p c2 = true
        · obtain ⟨rest2, hr⟩ := (splitRuns_head_shape p c2 cs).1 hp2
          rw [hsp] at hr
          have hs : s = [] := (List.cons.injEq _ _ _ _ ▸ hr).1
          subst hs
          simp only [List.filter_cons, decide_eq_true_eq, List.length_nil,
            Nat.lt_irrefl, if_false] at hfil
          simp only [splitRuns, runCount, hp, Bool.false_eq_true, if_false, hp2,
            if_true, hsp]
          rw [List.filter_cons]
          simp only [decide_eq_true_eq, List.length_cons, Nat.succ_pos, if_true,
            List.length_cons]
          omega
        · obtain ⟨s2, rest2, hr⟩ := (splitRuns_head_shape p c2 cs).2
            (by simpa using hp2)
          rw [hsp] at hr
          have hs : s = c2 :: s2 := (List.cons.injEq _ _ _ _ ▸ hr).1
          simp only [splitRuns, runCount, hp, Bool.false_eq_true, if_false, hp2, hsp]
          rw [List.filter_cons]
          simp only [decide_eq_true_eq, List.length_cons, Nat.succ_pos, if_true,
            List.length_cons]
          rw [List.filter_cons, hs] at hfil
          simp only [decide_eq_true_eq, List.length_cons, Nat.succ_pos, if_true,
            List.length_cons] at hfil
          omega

/-- Claim C6: for every message accepted by the echo tool the reported
word count equals the number of nonempty whitespace-delimited tokens of
the trimmed message (an all-whitespace message yields 0), and the
reported character count is the raw length, whitespace included. -/
theorem echo_counts (m m2 : List Char) (hall : ∀ c ∈ m2, jsIsSpace c = true) :
    wordCount m = runCount jsIsSpace (jsTrim m)
    ∧ charCount m = m.length
    ∧ wordCount m2 = 0 := by
  refine ⟨filter_splitRuns_length jsIsSpace (jsTrim m), rfl, ?_⟩
  have h1 : List.dropWhile jsIsSpace m2 = [] := by
    rw [List.dropWhile_eq_nil_iff]
    intro c hc
    simp [hall c hc]
  have h2 : jsTrim m2 = [] := by simp [jsTrim, h1]
  simp [wordCount, h2, splitRuns]

/-- Claim C6 witness: the counts evaluated at " a b " and the
all-whitespace message "  ". -/
theorem echo_counts_witness :
    wordCount ((" a b ").data) = runCount jsIsSpace (jsTrim ((" a b ").data))
    ∧ charCount ((" a b ").data) = (" a b ").data.length
    ∧ wordCount (("  ").data) = 0 :=
  echo_counts ((" a b ").data) (("  ").data) (by decide)

/-- Characters matched by none of the four composition classes. -/
def isOtherChar (c : Char) : Bool :=
  !(isAsciiLetter c) && !(isDigitChar c) && !(jsIsSpace c) && !(isPunctChar c)

/-- An ASCII letter is not a digit. -/
theorem letter_not_digit (c : Char) (h : isAsciiLetter c = true) :
    isDigitChar c = false := by
  simp only [isAsciiLetter, Bool.or_eq_true, decide_eq_true_eq] at h
  simp only [isDigitChar, decide_eq_false_iff_not]
  omega

/-- An ASCII letter is not a whitespace character. -/
theorem letter_not_space (c : Char) (h : isAsciiLetter c = true) :
    jsIsSpace c = false := by
  simp only [isAsciiLetter, Bool.or_eq_true, decide_eq_true_eq] at h
  simp only [jsIsSpace, jsSpaceCodes, decide_eq_false_iff_not, List.mem_cons,
    List.not_mem_nil, or_false]
  omega

/-- A digit is not a whitespace character. -/
theorem digit_not_space (c : Char) (h : isDigitChar c = true) :
    jsIsSpace c = false := by
  simp only [isDigitChar, decide_eq_true_eq] at h
  simp only [jsIsSpace, jsSpaceCodes, decide_eq_false_iff_not, List.mem_cons,
    List.not_mem_nil, or_false]
  omega

/-- Every character falls in exactly one of the five composition
buckets. -/
theorem class_partition (c : Char) :
    ((if isAsciiLetter c then 1 else 0) + (if isDigitChar c then 1 else 0) +
     (if jsIsSpace c then 1 else 0) + (if isPunctChar c then 1 else 0) +
     (if isOtherChar c then 1 else 0) : Nat) = 1 := by
  by_cases hl : isAsciiLetter c = true
  · have hd := letter_not_digit c hl
    have hs := letter_not_space c hl
    have hp : isPunctChar c = false := by simp [isPunctChar, isWordChar, hl]
    simp [isOtherChar, hl, hd, hs, hp]
  · have hl' : isAsciiLetter c = false := by simpa using hl
    by_cases hd : isDigitChar c = true
    · have hs := digit_not_space c hd
      have hp : isPunctChar c = false := by simp [isPunctChar, isWordChar, hd]
      simp [isOtherChar, hl', hd, hs, hp]
    · have hd' : isDigitChar c = false := by simpa using hd
      by_cases hs : jsIsSpace c = true
      · have hp : isPunctChar c = false := by simp [isPunctChar, hs]
        simp [isOtherChar, hl', hd', hs, hp]
      · have hs' : jsIsSpace c = false := by simpa using hs
        by_cases hu : c = '_'
        · have hp : isPunctChar c = false := by simp [isPunctChar, isWordChar, hu]
          simp [isOtherChar, hl', hd', hs', hp]
        · have hw : isWordChar c = false := by simp [isWordChar, hl', hd', hu]
          have hp : isPunctChar c = true := by simp [isPunctChar, hw, hs']
          simp [isOtherChar, hl', hd', hs', hp]

/-- Filtering a cons adds one exactly when the head satisfies the
predicate. -/
theorem filterLen_cons (p : Char → Bool) (c : Char) (t : List Char) :
    ((c :: t).filter p).length = (if p c then 1 else 0) + (t.filter p).length := by
  rw [List.filter_cons]
  by_cases h : p c = true <;> simp [h, Nat.add_comm]

/-- The five bucket counts partition the length of the text. -/
theorem length_partition (t : List Char) :
    (t.filter isAsciiLetter).length + (t.filter isDigitChar).length +
    (t.filter jsIsSpace).length + (t.filter isPunctChar).length +
    (t.filter isOtherChar).length = t.length := by
  induction t with
  | nil => simp
  | cons c t ih =>
    rw [filterLen_cons, filterLen_cons, filterLen_cons, filterLen_cons, filterLen_cons]
    have hc := class_partition c
    simp only [List.length_cons]
    omega

/-- Claim C8: for every input text the analyze tool's composition counts
satisfy letters + digits + spaces + punctuation + other = total length
exactly, with all five buckets nonnegative (the `other` bucket is computed
by subtraction in the source). -/
theorem analyze_composition (t : List Char) :
    (composition t).letters + (composition t).digits + (composition t).spaces +
      (composition t).punctuation + (composition t).other = (t.length : Int)
    ∧ 0 ≤ (composition t).letters ∧ 0 ≤ (composition t).digits
    ∧ 0 ≤ (composition t).spaces ∧ 0 ≤ (composition t).punctuation
    ∧ 0 ≤ (composition t).other := by
  have hpart := length_partition t
  simp only [composition]
  omega

/-- Claim C9: an invocation naming a tool other than `echo` produces the
failure `Unknown tool: <name>` at the dispatch boundary, and no handler
runs — the outcome is the same whatever the arguments or the clock say. -/
theorem unknown_tool_failure (name : String) (message message2 : Option String)
    (now now2 : String) (h : name ≠ "echo") :
    handleCallToolV1 name message now = Except.error (("Unknown tool: ") ++ name)
    ∧ handleCallToolV1 name message now = handleCallToolV1 name message2 now2 := by
  constructor
  · simp [handleCallToolV1, h]
  · simp [handleCallToolV1, h]

/-- Claim C9 witness: the dispatch evaluated at the unregistered name used
by the repository's own test. -/
theorem unknown_tool_failure_witness :
    handleCallToolV1 ("unknown_tool") (some ("hi")) ("t1") =
      Except.error (("Unknown tool: ") ++ ("unknown_tool"))
    ∧ handleCallToolV1 ("unknown_tool") (some ("hi")) ("t1") =
      handleCallToolV1 ("unknown_tool") none ("t2") :=
  unknown_tool_failure ("unknown_tool") (some ("hi")) none ("t1") ("t2") (by decide)

/-- Claim C7 (amended): with the random source modelled as an exact
rational in the unit interval, the integer generator stays in the closed
interval whenever min is at most max (in particular min = max = 5 always
yields 5), and the float generator lies in the half-open interval whenever
min is strictly below max; in the degenerate float case min = max the
value equals min, which is outside the then-empty half-open interval. -/
theorem random_bounds (r : ℚ) (m M : Int) (mf Mf x : ℚ)
    (h0 : 0 ≤ r) (h1 : r < 1) (hmM : m ≤ M) (hf : mf < Mf) :
    ((m : ℚ) ≤ randomInt r m M ∧ randomInt r m M ≤ (M : ℚ))
    ∧ randomInt r 5 5 = 5
    ∧ (mf ≤ randomFloat r mf Mf ∧ randomFloat r mf Mf < Mf)
    ∧ randomFloat r x x = x := by
  have hr5 : randomInt r 5 5 = 5 := by
    have hfl : ⌊r⌋ = 0 := Int.floor_eq_zero_iff.mpr (Set.mem_Ico.mpr ⟨h0, h1⟩)
    have he : r * ((5 : ℚ) - 5 + 1) = r := by ring
    simp [randomInt, he, hfl]
  refine ⟨?_, hr5, ⟨?_, ?_⟩, by simp [randomFloat]⟩
  · have hk : (0 : ℚ) < (M : ℚ) - (m : ℚ) + 1 := by
      have : (m : ℚ) ≤ (M : ℚ) := by exact_mod_cast hmM
      linarith
    have hlow : (0 : Int) ≤ ⌊r * ((M : ℚ) - (m : ℚ) + 1)⌋ := by
      rw [Int.le_floor]
      have := mul_nonneg h0 (le_of_lt hk)
      simpa using this
    have hhigh : ⌊r * ((M : ℚ) - (m : ℚ) + 1)⌋ < M - m + 1 := by
      rw [Int.floor_lt]
      have hmul : r * ((M : ℚ) - (m : ℚ) + 1) < 1 * ((M : ℚ) - (m : ℚ) + 1) :=
        mul_lt_mul_of_pos_right h1 hk
      push_cast
      linarith
    constructor
    · simp only [randomInt]
      have : (0 : ℚ) ≤ (⌊r * ((M : ℚ) - (m : ℚ) + 1)⌋ : ℚ) := by exact_mod_cast hlow
      linarith
    · simp only [randomInt]
      have : (⌊r * ((M : ℚ) - (m : ℚ) + 1)⌋ : ℚ) ≤ (M : ℚ) - (m : ℚ) := by
        have h2 : ⌊r * ((M : ℚ) - (m : ℚ) + 1)⌋ ≤ M - m := by omega
        have h3 : ((M - m : Int) : ℚ) = (M : ℚ) - (m : ℚ) := by push_cast; ring
        rw [← h3]
        exact_mod_cast h2
      linarith
  · have : 0 ≤ r * (Mf - mf) := mul_nonneg h0 (by linarith)
    simp only [randomFloat]
    linarith
  · have : r * (Mf - mf) < 1 * (Mf - mf) :=
      mul_lt_mul_of_pos_right h1 (by linarith)
    simp only [randomFloat]
    linarith

/-- Claim C7 witness: the bounds evaluated at the random draw 1/2, the
integer interval 3..7 and the float interval 0..1. -/
theorem random_bounds_witness :
    ((((3 : Int) : ℚ)) ≤ randomInt (1/2) ((3 : Int) : ℚ) ((7 : Int) : ℚ)
      ∧ randomInt (1/2) ((3 : Int) : ℚ) ((7 : Int) : ℚ) ≤ (((7 : Int) : ℚ)))
    ∧ randomInt (1/2) 5 5 = 5
    ∧ ((0 : ℚ) ≤ randomFloat (1/2) 0 1 ∧ randomFloat (1/2) 0 1 < 1)
    ∧ randomFloat (1/2) 9 9 = 9 :=
  random_bounds (1/2) 3 7 0 1 9 (by norm_num) (by norm_num) (by norm_num) (by norm_num)

/-- Claim C7 counterexample: a float invocation with min = max = 5 is
valid for the schema, gets the legitimate random draw 1/2, and returns 5,
which does not lie in the empty half-open interval from 5 to 5. -/
theorem random_float_degenerate_counterexample :
    (0 : ℚ) ≤ 1/2 ∧ (1/2 : ℚ) < 1
    ∧ randomFloat (1/2) 5 5 = 5
    ∧ ¬(randomFloat (1/2) 5 5 < 5) := by
  norm_num [randomFloat]

/-- Claim C1 (amended): a failure caught by the shared per-handler catch
clause yields `isError: true` with text `Error: <message>`, and a success
yields an absent `isError` with the pretty-printed JSON of the structured
result; the one exception is the json tool's invalid-JSON short-circuit,
whose envelope sets `isError: true` but carries the pretty-printed JSON of
a validity-false object rather than an `Error: <message>` string. -/
theorem envelope_shape (msg e op data : String) (v : Json) (ind : Nat) :
    wrapHandler (Except.error msg) =
      { content := [{ text := ("Error: ") ++ msg }], isError := some true }
    ∧ wrapHandler (Except.ok v) =
      { content := [{ text := String.mk (stringifyAt 2 0 v) }], isError := none }
    ∧ jsonEnvelope (Except.error e) op data ind =
      { content := [{ text := String.mk (stringifyAt 2 0
          (Json.obj [(("valid"), Json.bool false), (("error"), Json.str e)])) }],
        isError := some true }
    ∧ (stringifyAt 2 0
        (Json.obj [(("valid"), Json.bool false), (("error"), Json.str e)])).head? =
      some lbrace :=
  ⟨rfl, rfl, rfl, rfl⟩

/-- Claim C1 counterexample: the json tool's invalid-JSON branch is a
failing invocation (isError is true) whose text is a pretty-printed JSON
object, not a string of the form `Error: <message>`. -/
theorem json_error_envelope_counterexample :
    (jsonEnvelope (Except.error ("Unexpected token")) ("validate") ("\x7bnot json") 2).isError =
      some true
    ∧ ((jsonEnvelope (Except.error ("Unexpected token")) ("validate") ("\x7bnot json") 2).content.map
        ContentItem.text) =
      [("\x7b\n  \"valid\": false,\n  \"error\": \"Unexpected token\"\n\x7d")]
    ∧ ("\x7b\n  \"valid\": false,\n  \"error\": \"Unexpected token\"\n\x7d").data.take 7 ≠
      ("Error: ").data := by
  refine ⟨rfl, by decide, by decide⟩

/-- Claim C3 (code bug): the decode branch of the base64 handler never
reaches its `Invalid Base64 input` throw, because Node's lenient decoder
skips invalid characters and stops at `=` instead of throwing; on the
malformed input "!!!" the handler returns a success envelope (no
`isError`) whose decoded result is the empty string. -/
theorem base64_decode_lenient :
    base64Handler ("decode") ("!!!") false =
      { content := [{ text := ("\x7b\n  \"operation\": \"decode\",\n  \"input_length\": 3,\n  \"output_length\": 0,\n  \"url_safe\": false,\n  \"result\": \"\"\n\x7d") }],
        isError := none }
    ∧ (base64Handler ("decode") ("!!!") false).isError ≠ some true
    ∧ b64decode (("!!!").data) = [] := by
  refine ⟨by decide, by decide, by decide⟩

/-- `Nat.toDigitsCore` never shrinks a nonempty accumulator to nothing. -/
theorem toDigitsCore_ne_nil (f : Nat) :
    ∀ (n : Nat) (acc : List Char), acc ≠ [] → Nat.toDigitsCore 10 f n acc ≠ [] := by
  induction f with
  | zero => intro n acc h; simpa [Nat.toDigitsCore] using h
  | succ f ih =>
    intro n acc h
    simp only [Nat.toDigitsCore]
    split
    · simp
    · exact ih _ _ (by simp)

/-- The decimal digit list of a natural number is nonempty. -/
theorem toDigits_ne_nil (n : Nat) : Nat.toDigits 10 n ≠ [] := by
  unfold Nat.toDigits
  simp only [Nat.toDigitsCore]
  split
  · simp
  · exact toDigitsCore_ne_nil _ _ _ (by simp)

/-- The decimal rendering of a natural number is a nonempty string. -/
theorem toString_nat_ne_empty (n : Nat) : toString n ≠ "" := by
  intro h
  exact toDigits_ne_nil n (congrArg String.data h)

/-- A field key of an object appears (dotted under the prefix) in the
key walk of that object. -/
theorem mem_getAllKeysFields (k : String) (v : Json) :
    ∀ (fs : List (String × Json)) (pre : String), (k, v) ∈ fs →
      (if pre = "" then k else pre ++ "." ++ k) ∈ getAllKeysFields fs pre := by
  intro fs
  induction fs with
  | nil => intro pre h; simp at h
  | cons f fs ih =>
    intro pre h
    rcases List.mem_cons.mp h with h1 | h1
    · obtain ⟨k2, v2⟩ := f
      obtain ⟨hk, hv⟩ := Prod.mk.injEq _ _ _ _ ▸ h1.symm
      subst hk
      simp [getAllKeysFields]
    · obtain ⟨k2, v2⟩ := f
      simp only [getAllKeysFields, List.mem_cons, List.mem_append]
      exact Or.inr (Or.inr (ih pre h1))

/-- Every index position of an array appears as a key in the root key
walk of that array. -/
theorem mem_getAllKeysItems_index :
    ∀ (xs : List Json) (i j : Nat), j < xs.length →
      toString (i + j) ∈ getAllKeysItems xs i "" := by
  intro xs
  induction xs with
  | nil => intro i j h; simp at h
  | cons v xs ih =>
    intro i j h
    cases j with
    | zero => simp [getAllKeysItems]
    | succ j =>
      have hmem := ih (i + 1) j (by simpa using h)
      have heq : i + (j + 1) = (i + 1) + j := by omega
      rw [heq]
      simp only [getAllKeysItems, if_pos rfl, List.mem_cons, List.mem_append]
      exact Or.inr (Or.inr hmem)

/-- A dotted path through a plain-object element of an array appears in
the root key walk of that array. -/
theorem mem_getAllKeysItems_objfield :
    ∀ (xs : List Json) (i j : Nat) (fs : List (String × Json)) (k : String) (v : Json),
      xs.get? j = some (Json.obj fs) → (k, v) ∈ fs →
      (toString (i + j) ++ "." ++ k) ∈ getAllKeysItems xs i "" := by
  intro xs
  induction xs with
  | nil => intro i j fs k v h _; simp at h
  | cons x xs ih =>
    intro i j fs k v h hkv
    cases j with
    | zero =>
      have hx : x = Json.obj fs := by simpa using h
      subst hx
      have h2 := mem_getAllKeysFields k v fs (toString i) hkv
      rw [if_neg (toString_nat_ne_empty i)] at h2
      simp only [getAllKeysItems, if_pos rfl, isPlainObj, if_pos, getAllKeys,
        List.mem_cons, List.mem_append, Nat.add_zero]
      exact Or.inr (Or.inl h2)
    | succ j =>
      have hmem := ih (i + 1) j fs k v (by simpa using h) hkv
      have heq : i + (j + 1) = (i + 1) + j := by omega
      rw [heq]
      simp only [getAllKeysItems, if_pos rfl, List.mem_cons, List.mem_append]
      exact Or.inr (Or.inr hmem)

/-- Claim C10: for a json-tool get_keys invocation whose data parses to a
top-level array, the keys list is nonempty when the array is nonempty; it
enumerates the array's index positions as keys and recurses into elements
that are plain objects, building dotted paths; array values nested inside
objects contribute their key only and are never recursed into; the root
guard admits arrays even though the recursion guard does not. -/
theorem getKeys_array (elems : List Json) (i j : Nat) (fs : List (String × Json))
    (k k2 : String) (v : Json) (xs : List Json) (pre : String)
    (hne : elems ≠ []) (hi : i < elems.length)
    (hj : elems.get? j = some (Json.obj fs)) (hkv : (k, v) ∈ fs) :
    jsonGetKeys (Json.arr elems) ≠ []
    ∧ toString i ∈ jsonGetKeys (Json.arr elems)
    ∧ (toString j ++ "." ++ k) ∈ jsonGetKeys (Json.arr elems)
    ∧ getAllKeys (Json.obj [(k2, Json.arr xs)]) pre =
        [if pre = "" then k2 else pre ++ "." ++ k2] := by
  have hk : jsonGetKeys (Json.arr elems) = getAllKeysItems elems 0 "" := rfl
  refine ⟨?_, ?_, ?_, ?_⟩
  · rw [hk]
    cases elems with
    | nil => exact absurd rfl hne
    | cons x xs2 => simp [getAllKeysItems]
  · rw [hk]
    have := mem_getAllKeysItems_index elems 0 i hi
    simpa using this
  · rw [hk]
    have := mem_getAllKeysItems_objfield elems 0 j fs k v hj hkv
    simpa using this
  · simp [getAllKeys, getAllKeysFields, isPlainObj]

/-- Claim C10 witness: the key walk of the concrete array holding a plain
object and a number, and the non-recursion into an array-valued field. -/
theorem getKeys_array_witness :
    jsonGetKeys (Json.arr [Json.obj [(("a"), Json.num 1)], Json.num 2]) ≠ []
    ∧ toString 1 ∈ jsonGetKeys (Json.arr [Json.obj [(("a"), Json.num 1)], Json.num 2])
    ∧ (toString 0 ++ "." ++ ("a")) ∈
        jsonGetKeys (Json.arr [Json.obj [(("a"), Json.num 1)], Json.num 2])
    ∧ getAllKeys (Json.obj [(("b"), Json.arr [Json.num 3])]) ("") =
        [if ("") = ("") then ("b") else ("") ++ "." ++ ("b")] :=
  getKeys_array [Json.obj [(("a"), Json.num 1)], Json.num 2] 1 0
    [(("a"), Json.num 1)] ("a") ("b") (Json.num 1) [Json.num 3] ("")
    (by simp) (by simp) rfl (by simp)

/-- `Char.ofNat` of a scalar value below the surrogate range keeps the
value. -/
theorem char_toNat_ofNat_valid (n : Nat) (h : n < 55296) :
    (Char.ofNat n).toNat = n := by
  have hv : n.isValidChar := Or.inl h
  unfold Char.ofNat
  rw [dif_pos hv]
  rfl

/-- Uppercasing keeps a hexadecimal digit hexadecimal. -/
theorem isHexChar_upper (c : Char) (h : isHexChar c = true) :
    isHexChar (jsToUpper c) = true := by
  by_cases hu : 97 ≤ c.toNat ∧ c.toNat ≤ 122
  · have hx : 97 ≤ c.toNat ∧ c.toNat ≤ 102 := by
      simp only [isHexChar, isDigitChar, Bool.or_eq_true, decide_eq_true_eq] at h
      omega
    have hn : (Char.ofNat (c.toNat - 32)).toNat = c.toNat - 32 :=
      char_toNat_ofNat_valid _ (by omega)
    simp only [jsToUpper, if_pos hu, isHexChar, isDigitChar, Bool.or_eq_true,
      decide_eq_true_eq, hn]
    omega
  · simp only [jsToUpper, if_neg hu]
    exact h

/-- Uppercasing preserves the per-position validity of a version-4 UUID
character. -/
theorem uuidPosOk_upper (i : Nat) (c : Char) (h : uuidPosOk i c = true) :
    uuidPosOk i (jsToUpper c) = true := by
  unfold uuidPosOk at h ⊢
  by_cases hA : (i = 8 || i = 13 || i = 18 || i = 23) = true
  · simp only [hA, if_true] at h ⊢
    have hc : c = '-' := by simpa using h
    subst hc
    decide
  · have hA' : (i = 8 || i = 13 || i = 18 || i = 23) = false := by simpa using hA
    simp only [hA', Bool.false_eq_true, if_false] at h ⊢
    by_cases h14 : i = 14
    · simp only [h14, if_true, if_pos] at h ⊢
      have hc : c = '4' := by simpa using h
      subst hc
      decide
    · simp only [if_neg h14] at h ⊢
      by_cases h19 : i = 19
      · simp only [h19, if_pos] at h ⊢
        have hc : c ∈ ['8', '9', 'a', 'b', 'A', 'B'] := by simpa using h
        fin_cases hc <;> decide
      · simp only [if_neg h19] at h ⊢
        exact isHexChar_upper c h

/-- `getD` below the length commutes with `map`. -/
theorem getD_map_lt (f : Char → Char) :
    ∀ (l : List Char) (i : Nat), i < l.length →
      ∀ d d' : Char, (l.map f).getD i d = f (l.getD i d') := by
  intro l
  induction l with
  | nil => intro i h; simp at h
  | cons a l ih =>
    intro i h d d'
    cases i with
    | zero => simp
    | succ i =>
      simp only [List.map_cons, List.getD_cons_succ]
      exact ih i (by simpa using h) d d'

/-- Uppercasing a syntactically valid version-4 UUID keeps it valid. -/
theorem isValidUuidV4_upper (s : String) (h : isValidUuidV4 s = true) :
    isValidUuidV4 (jsToUpperStr s) = true := by
  simp only [isValidUuidV4, Bool.and_eq_true, decide_eq_true_eq,
    List.all_eq_true] at h ⊢
  obtain ⟨hlen, hall⟩ := h
  have hdata : (jsToUpperStr s).data = s.data.map jsToUpper := rfl
  constructor
  · simp [hdata, hlen]
  · intro i hi
    have hi' : i < 36 := List.mem_range.mp hi
    have hg : ((jsToUpperStr s).data).getD i ' ' = jsToUpper (s.data.getD i ' ') := by
      rw [hdata]
      exact getD_map_lt jsToUpper s.data i (by omega) ' ' ' '
    rw [hg]
    exact uuidPosOk_upper i _ (hall i hi)

/-- Claim C5: a valid uuid invocation with count in 1..100 produces
exactly count syntactically valid version-4 identifiers whatever version
is requested (the generator stream is only required to honour the
`randomUUID` contract of returning version-4 UUIDs), the uuids field does
not depend on the requested version, the in-range count passes the
validation gate, and count = 101 is rejected at validation before the
handler runs. -/
theorem uuid_generation (gen : Nat → String) (version version2 : String)
    (count : Nat) (upper : Bool) (u : String)
    (hgen : ∀ i, isValidUuidV4 (gen i) = true)
    (h1 : 1 ≤ count) (h2 : count ≤ 100)
    (hu : u ∈ uuidList gen count upper) :
    (uuidList gen count upper).length = count
    ∧ isValidUuidV4 u = true
    ∧ objField (uuidHandler gen version count upper) (("uuids")) =
        objField (uuidHandler gen version2 count upper) (("uuids"))
    ∧ uuidDispatch gen version ((count : Int)) upper =
        some (uuidHandler gen version count upper)
    ∧ uuidDispatch gen version2 101 upper = none := by
  refine ⟨by simp [uuidList], ?_, rfl, ?_, ?_⟩
  · obtain ⟨i, hi, hval⟩ := List.mem_map.mp hu
    cases hup : upper
    · rw [hup] at hval
      simp only [Bool.false_eq_true, if_false] at hval
      rw [← hval]
      exact hgen i
    · rw [hup] at hval
      simp only [if_true] at hval
      rw [← hval]
      exact isValidUuidV4_upper _ (hgen i)
  · have hv : uuidCountValid ((count : Int)) = true := by
      simp only [uuidCountValid, decide_eq_true_eq]
      constructor
      · exact_mod_cast h1
      · exact_mod_cast h2
    simp [uuidDispatch, hv]
  · have hv : uuidCountValid 101 = false := by decide
    simp [uuidDispatch, hv]

/-- A concrete syntactically valid version-4 identifier. -/
theorem uuidConst_valid :
    isValidUuidV4 (("00000000-0000-4000-8000-000000000000")) = true := by
  decide

/-- Claim C5 witness: two uuids generated from a constant conforming
stream, uppercased, at requested version v7, with the count bound
checked at 2 and at 101. -/
theorem uuid_generation_witness :
    (uuidList (fun _ => ("00000000-0000-4000-8000-000000000000")) 2 true).length = 2
    ∧ isValidUuidV4 (("00000000-0000-4000-8000-000000000000")) = true
    ∧ objField (uuidHandler (fun _ => ("00000000-0000-4000-8000-000000000000")) ("v7") 2 true) (("uuids")) =
        objField (uuidHandler (fun _ => ("00000000-0000-4000-8000-000000000000")) ("v4") 2 true) (("uuids"))
    ∧ uuidDispatch (fun _ => ("00000000-0000-4000-8000-000000000000")) ("v7") (((2 : Nat) : Int)) true =
        some (uuidHandler (fun _ => ("00000000-0000-4000-8000-000000000000")) ("v7") 2 true)
    ∧ uuidDispatch (fun _ => ("00000000-0000-4000-8000-000000000000")) ("v4") 101 true = none :=
  uuid_generation (fun _ => ("00000000-0000-4000-8000-000000000000")) ("v7") ("v4")
    2 true ("00000000-0000-4000-8000-000000000000")
    (fun _ => uuidConst_valid) (by decide) (by decide) (by decide)

/-- Regrouping the six-bit groups of a byte list recovers the bytes. -/
theorem sextets_bytes_roundtrip : ∀ bs : List Nat, (∀ b ∈ bs, b < 256) →
    sextetsToBytes (bytesToSextets bs) = bs
  | [], _ => rfl
  | [b1], h => by
    simp only [bytesToSextets, sextetsToBytes, List.cons.injEq, and_true]
    omega
  | [b1, b2], h => by
    have hb2 : b2 < 256 := h b2 (by simp)
    simp only [bytesToSextets, sextetsToBytes, List.cons.injEq, and_true]
    constructor
    · omega
    · omega
  | b1 :: b2 :: b3 :: rest, h => by
    have hb2 : b2 < 256 := h b2 (by simp)
    have hb3 : b3 < 256 := h b3 (by simp)
    have ih := sextets_bytes_roundtrip rest (fun b hb => h b (by simp [hb]))
    simp only [bytesToSextets, List.cons_append, List.nil_append, sextetsToBytes,
      List.cons.injEq]
    exact ⟨by omega, by omega, by omega, ih⟩

/-- The six-bit groups of a byte list are all below 64. -/
theorem bytesToSextets_lt : ∀ bs : List Nat, (∀ b ∈ bs, b < 256) →
    ∀ s ∈ bytesToSextets bs, s < 64
  | [], _, s, hs => by simp [bytesToSextets] at hs
  | [b1], h, s, hs => by
    have hb1 : b1 < 256 := h b1 (by simp)
    simp only [bytesToSextets, List.mem_cons, List.not_mem_nil, or_false] at hs
    rcases hs with h1 | h1 <;> omega
  | [b1, b2], h, s, hs => by
    have hb1 : b1 < 256 := h b1 (by simp)
    have hb2 : b2 < 256 := h b2 (by simp)
    simp only [bytesToSextets, List.mem_cons, List.not_mem_nil, or_false] at hs
    rcases hs with h1 | h1 | h1 <;> omega
  | b1 :: b2 :: b3 :: rest, h, s, hs => by
    have hb1 : b1 < 256 := h b1 (by simp)
    have hb2 : b2 < 256 := h b2 (by simp)
    have hb3 : b3 < 256 := h b3 (by simp)
    simp only [bytesToSextets, List.cons_append, List.nil_append, List.mem_cons] at hs
    rcases hs with h1 | h1 | h1 | h1 | h1
    · omega
    · omega
    · omega
    · omega
    · exact bytesToSextets_lt rest (fun b hb => h b (by simp [hb])) s h1

/-- The standard alphabet round-trips through Node's digit table and
never produces the padding character. -/
theorem b64TableStd_ok : ∀ n, n < 64 →
    unbase64 (b64TableStd n) = some n ∧ b64TableStd n ≠ '=' := by
  decide

/-- The URL-safe alphabet round-trips through Node's digit table and
never produces the padding character. -/
theorem b64TableUrl_ok : ∀ n, n < 64 →
    unbase64 (b64TableUrl n) = some n ∧ b64TableUrl n ≠ '=' := by
  decide

/-- The lenient scan recovers exactly the encoded six-bit groups: every
encoded character is a digit of the table, and the padding (empty, one or
two `=`) stops the scan. -/
theorem collect_map_pad (tbl : Nat → Char) (pad : List Char)
    (hpad : pad = [] ∨ pad = ['='] ∨ pad = ['=', '=']) :
    ∀ sx : List Nat, (∀ s ∈ sx, unbase64 (tbl s) = some s ∧ tbl s ≠ '=') →
    collectSextets (sx.map tbl ++ pad) = sx := by
  intro sx
  induction sx with
  | nil =>
    intro _
    rcases hpad with h | h | h <;> simp [h, collectSextets]
  | cons s sx ih =>
    intro h
    have hs := h s (by simp)
    simp only [List.map_cons, List.cons_append, collectSextets]
    rw [if_neg hs.2, hs.1]
    show s :: collectSextets (List.map tbl sx ++ pad) = s :: sx
    rw [ih (fun t ht => h t (by simp [ht]))]

/-- Claim C4: for every byte string, decoding the Base64 encoding
recovers the bytes, with the standard alphabet (with its padding) and
with the URL-safe alphabet (unpadded) alike; the string layer on top is
the external UTF-8 byte conversion of the Buffer primitives. -/
theorem base64_roundtrip (bs : List Nat) (u : Bool) (h : ∀ b ∈ bs, b < 256) :
    b64decode (b64encode u bs) = bs := by
  have hlt := bytesToSextets_lt bs h
  cases u
  · have hpad : b64Pad bs.length = [] ∨ b64Pad bs.length = ['='] ∨
        b64Pad bs.length = ['=', '='] := by
      unfold b64Pad
      split_ifs <;> simp
    have hcoll := collect_map_pad b64TableStd (b64Pad bs.length) hpad
      (bytesToSextets bs) (fun s hs => b64TableStd_ok s (hlt s hs))
    simp only [b64decode, b64encode, Bool.false_eq_true, if_false]
    rw [hcoll]
    exact sextets_bytes_roundtrip bs h
  · have hcoll := collect_map_pad b64TableUrl [] (Or.inl rfl)
      (bytesToSextets bs) (fun s hs => b64TableUrl_ok s (hlt s hs))
    simp only [b64decode, b64encode, if_true]
    rw [List.append_nil] at hcoll ⊢
    rw [hcoll]
    exact sextets_bytes_roundtrip bs h

/-- Claim C4 witness: the round trip evaluated on the bytes 72, 105, 255
in both alphabets. -/
theorem base64_roundtrip_witness :
    b64decode (b64encode false [72, 105, 255]) = [72, 105, 255]
    ∧ b64decode (b64encode true [72, 105, 255]) = [72, 105, 255] :=
  ⟨base64_roundtrip [72, 105, 255] false (by decide),
   base64_roundtrip [72, 105, 255] true (by decide)⟩
